import Mathlib

/-!
Shallow embedding of `src/src/log_attributes_validator.py` (Log Attributes
Validator & Enricher).  Python dictionaries of scalar attribute values are
modelled as association lists (first binding wins, insertion appends at the
end, matching CPython dict insertion order); Python scalars are modelled by
the inductive type `Value`; the implicit Python exception path of the
enricher (`AttributeError` from `service_name.lower()` on a non-string) is
modelled with `Option` (`none` = the call raises).
-/

set_option maxRecDepth 100000

/-- A Python scalar value as it can appear in a log attribute set:
string, integer, boolean, or `None`. -/
inductive Value where
  | str (s : String)
  | int (n : Int)
  | bool (b : Bool)
  | none
deriving DecidableEq, Repr

/-- Python truthiness test (`not cleaned[attr]` in the source): `""`, `0`,
`False` and `None` are falsy. -/
def falsy : Value → Bool
  | .str s => s == ""
  | .int n => n == 0
  | .bool b => !b
  | .none => true

/-- Python `str()` of a scalar, as used by f-string interpolation in the
error messages of `validate_attributes`. -/
def pyStrOfValue : Value → String
  | .str s => s
  | .int n => toString n
  | .bool b => if b then "True" else "False"
  | .none => "None"

/-- CPython `repr()` of a string (printable-ASCII fragment): single quotes
unless the string holds a single quote but no double quote; backslash, the
chosen quote, and the common control characters are escaped. -/
def pyReprString (s : String) : String :=
  let q : Char := if s.data.contains '\'' && !(s.data.contains '"') then '"' else '\''
  let esc : List Char := s.data.foldr (fun c acc =>
    if c = '\\' then '\\' :: '\\' :: acc
    else if c = q then '\\' :: q :: acc
    else if c = '\n' then '\\' :: 'n' :: acc
    else if c = '\t' then '\\' :: 't' :: acc
    else if c = '\r' then '\\' :: 'r' :: acc
    else c :: acc) []
  String.mk (q :: (esc ++ [q]))

/-- CPython `repr()` of a scalar, as used by `str(dict)` for each key and
value. -/
def pyReprValue : Value → String
  | .str s => pyReprString s
  | .int n => toString n
  | .bool b => if b then "True" else "False"
  | .none => "None"

/-- A Python attribute dictionary: association list from dot-namespaced
field names to scalar values. -/
abbrev AttrSet := List (String × Value)

/-- First binding of key `k` (CPython dict lookup; well-formed dicts have
unique keys, and every operation below preserves that). -/
def keyFind (l : AttrSet) (k : String) : Option (String × Value) :=
  l.find? (fun p => p.1 == k)

/-- Python `k in d`. -/
def containsKey (l : AttrSet) (k : String) : Bool :=
  (keyFind l k).isSome

/-- Python `d[k]` as an `Option`. -/
def getV (l : AttrSet) (k : String) : Option Value :=
  (keyFind l k).map Prod.snd

/-- Python `d.get(k, dflt)`. -/
def dictGetD (l : AttrSet) (k : String) (dflt : Value) : Value :=
  (getV l k).getD dflt

/-- `if k not in d: d[k] = v` — insertion appends at the end, matching
CPython dict insertion order. -/
def addIfAbsent (l : AttrSet) (k : String) (v : Value) : AttrSet :=
  if containsKey l k then l else l ++ [(k, v)]

/-- `LogAttributesValidator.MANDATORY_ATTRIBUTES`. -/
def MANDATORY_ATTRIBUTES : List String :=
  ["service.name", "deployment.environment", "log.level", "event.domain", "event.type"]

/-- `LogAttributesValidator.FORBIDDEN_KEYWORDS`. -/
def FORBIDDEN_KEYWORDS : List String :=
  ["password", "secret", "token", "api_key", "credit_card", "ssn", "national_id"]

/-- `[e.value for e in LogLevel]`. -/
def LogLevel_values : List Value :=
  [.str "FATAL", .str "ERROR", .str "WARN", .str "INFO", .str "DEBUG", .str "TRACE"]

/-- `LogAttributesValidator.VALID_ENVIRONMENTS`, as scalar values. -/
def VALID_ENVIRONMENTS : List Value :=
  [.str "prod", .str "staging", .str "dev", .str "test"]

/-- `[e.value for e in EventDomain]`. -/
def EventDomain_values : List Value :=
  [.str "auth", .str "session", .str "dictation_frontend", .str "dictation_backend",
   .str "worklist", .str "viewer"]

/-- `[e.value for e in EventType]`. -/
def EventType_values : List Value :=
  [.str "access", .str "error", .str "audit", .str "validation", .str "performance",
   .str "security"]

/-- Python `v in l` over a list of scalar values. -/
def valueIn (v : Value) (l : List Value) : Bool :=
  l.any (fun x => decide (x = v))

/-- Python `str.lower()` on one character (ASCII fragment — all strings the
source lowercases are ASCII). -/
def pyCharLower (c : Char) : Char :=
  if 'A' ≤ c ∧ c ≤ 'Z' then Char.ofNat (c.toNat + 32) else c

/-- Python `str.lower()` on a character list. -/
def lowerL (cs : List Char) : List Char :=
  cs.map pyCharLower

/-- `needle` is a prefix of the character list. -/
def startsW : List Char → List Char → Bool
  | [], _ => true
  | _ :: _, [] => false
  | a :: as, b :: bs => a == b && startsW as bs

/-- Python `needle in haystack` substring test on character lists. -/
def containsSub (n : List Char) : List Char → Bool
  | [] => n.isEmpty
  | b :: bs => startsW n (b :: bs) || containsSub n bs

/-- CPython `str(dict)`: `{` repr(key) `: ` repr(value) (comma-separated) `}`. -/
def pyStrDict (l : AttrSet) : String :=
  "\x7b" ++ String.intercalate ", "
    (l.map (fun p => pyReprString p.1 ++ ": " ++ pyReprValue p.2)) ++ "\x7d"

/-- `attr not in cleaned or not cleaned[attr]` for one mandatory field. -/
def missingOrFalsy (attrs : AttrSet) (k : String) : Bool :=
  !(containsKey attrs k) || falsy (dictGetD attrs k Value.none)

/-- The mandatory-field loop of `validate_attributes`: the first field of
`MANDATORY_ATTRIBUTES` (fixed order) that is absent or falsy, if any. -/
def firstMissingMandatory (attrs : AttrSet) : Option String :=
  MANDATORY_ATTRIBUTES.find? (fun a => missingOrFalsy attrs a)

/-- The forbidden-keyword scan of `validate_attributes` step 6:
`attributes_str = str(cleaned).lower()`, first keyword of the fixed list with
`keyword.lower() in attributes_str`. -/
def firstForbiddenKeyword (attrs : AttrSet) : Option String :=
  FORBIDDEN_KEYWORDS.find?
    (fun kw => containsSub (lowerL kw.data) (lowerL (pyStrDict attrs).data))

/-- `LogAttributesValidator.validate_attributes` (source lines 86–138).
`cleaned = attributes.copy()` is the identity in this immutable model; the
`try`/`except` wrappers have no effect for scalar values (none of the
comparisons can raise), so the body is the plain check chain. -/
def validate_attributes (attributes : AttrSet) : Bool × String × AttrSet :=
  match firstMissingMandatory attributes with
  | some attr => (false, "Missing mandatory attribute: " ++ attr, attributes)
  | Option.none =>
    if valueIn (dictGetD attributes "log.level" Value.none) LogLevel_values = false then
      (false, "Invalid log.level: " ++
        pyStrOfValue (dictGetD attributes "log.level" Value.none), attributes)
    else if valueIn (dictGetD attributes "deployment.environment" Value.none)
        VALID_ENVIRONMENTS = false then
      (false, "Invalid deployment.environment: " ++
        pyStrOfValue (dictGetD attributes "deployment.environment" Value.none), attributes)
    else if valueIn (dictGetD attributes "event.domain" Value.none)
        EventDomain_values = false then
      (false, "Invalid event.domain: " ++
        pyStrOfValue (dictGetD attributes "event.domain" Value.none), attributes)
    else if valueIn (dictGetD attributes "event.type" Value.none)
        EventType_values = false then
      (false, "Invalid event.type: " ++
        pyStrOfValue (dictGetD attributes "event.type" Value.none), attributes)
    else
      match firstForbiddenKeyword attributes with
      | some kw => (false, "Forbidden keyword detected: " ++ kw, attributes)
      | Option.none => (true, "", attributes)

/-! ### `strip_pii` (source lines 140–158)

The three `re.sub` calls are embedded by hand-compiling each concrete
pattern into a backtracking matcher with CPython `re` semantics: a match is
attempted at every position from the left; greedy quantifiers try the longer
alternative first, with full-continuation backtracking; on a match the
pattern is replaced and scanning resumes after the match. -/

/-- Python `\w` (ASCII fragment): letters, digits, underscore. -/
def wordChar (c : Char) : Bool :=
  c.isAlpha || c.isDigit || c = '_'

/-- Word-character test on an optional character (`none` = string edge,
non-word). -/
def optWord : Option Char → Bool
  | some c => wordChar c
  | Option.none => false

/-- Python `\b`: a word boundary between two (optional) characters. -/
def bnd (a b : Option Char) : Bool :=
  optWord a != optWord b

/-- Python `\s` (ASCII fragment): space, tab, newline, carriage return,
vertical tab, form feed. -/
def isPySpace (c : Char) : Bool :=
  c = ' ' || c = '\t' || c = '\n' || c = '\r' || c = '\x0b' || c = '\x0c'

/-- The class `[-\s]` of the card pattern. -/
def isSepChar (c : Char) : Bool :=
  c = '-' || isPySpace c

/-- `\d{4}`: consume exactly four digits. -/
def d4 : List Char → Option (List Char)
  | a :: b :: c :: d :: rest =>
    if a.isDigit && b.isDigit && c.isDigit && d.isDigit then some rest else Option.none
  | _ => Option.none

/-- `[-\s]?` with greedy ordered backtracking: prefer consuming a separator,
fall back to the empty alternative, over the whole continuation `k`. -/
def optSep (cs : List Char) (k : List Char → Option (List Char)) : Option (List Char) :=
  match cs with
  | c :: rest =>
    if isSepChar c then
      match k rest with
      | some r => some r
      | Option.none => k cs
    else k cs
  | [] => k []

/-- Matcher for `\b(?:\d{4}[-\s]?){3}\d{4}\b` at the current position
(`prev` = the original character just before it).  The final `\b` follows a
digit (a word character), so it holds iff the next character is absent or
non-word. -/
def cardM (prev : Option Char) (cs : List Char) : Option (List Char) :=
  if bnd prev cs.head? then
    d4 cs >>= fun r1 =>
    optSep r1 (fun r1b => d4 r1b >>= fun r2 =>
    optSep r2 (fun r2b => d4 r2b >>= fun r3 =>
    optSep r3 (fun r3b => d4 r3b >>= fun r4 =>
      if optWord r4.head? then Option.none else some r4)))
  else Option.none

/-- Matcher for `\b09\d{8}\b` at the current position. -/
def phoneM (prev : Option Char) (cs : List Char) : Option (List Char) :=
  if bnd prev cs.head? then
    match cs with
    | '0' :: '9' :: rest =>
      (d4 rest >>= d4) >>= fun r =>
        if optWord r.head? then Option.none else some r
    | _ => Option.none
  else Option.none

/-- The class `[A-Za-z0-9._%+-]` (email local part). -/
def emailLocalChar (c : Char) : Bool :=
  c.isAlpha || c.isDigit || c = '.' || c = '_' || c = '%' || c = '+' || c = '-'

/-- The class `[A-Za-z0-9.-]` (email domain). -/
def emailDomainChar (c : Char) : Bool :=
  c.isAlpha || c.isDigit || c = '.' || c = '-'

/-- The class `[A-Z|a-z]` of the email pattern's TLD part (the `|` is part
of the character class as written in the source). -/
def emailTldChar (c : Char) : Bool :=
  c.isAlpha || c = '|'

/-- Length of the longest run of `cls`-characters at the head. -/
def countLeading (cls : Char → Bool) : List Char → Nat
  | [] => 0
  | c :: rest => if cls c then countLeading cls rest + 1 else 0

/-- Greedy `+` on a character class: try consuming `i` characters, then
`i-1`, … down to `1`, each against the continuation `k`. -/
def tryDownPlus (cs : List Char) (k : List Char → Option (List Char)) :
    Nat → Option (List Char)
  | 0 => Option.none
  | i + 1 =>
    match k (cs.drop (i + 1)) with
    | some r => some r
    | Option.none => tryDownPlus cs k i

/-- `cls+` with greedy backtracking over continuation `k`. -/
def plusGreedy (cls : Char → Bool) (cs : List Char)
    (k : List Char → Option (List Char)) : Option (List Char) :=
  tryDownPlus cs k (countLeading cls cs)

/-- `[A-Z|a-z]{2,}\b`, greedy: try the longest class run first, down to two
characters; the trailing `\b` compares the last consumed character with the
following one. -/
def tryDownTld (cs : List Char) : Nat → Option (List Char)
  | 0 => Option.none
  | 1 => Option.none
  | i + 2 =>
    let rest := cs.drop (i + 2)
    if bnd (cs.get? (i + 1)) rest.head? then some rest else tryDownTld cs (i + 1)

/-- Matcher for
`\b[A-Za-z0-9._%+-]+@[A-Za-z0-9.-]+\.[A-Z|a-z]{2,}\b` at the current
position. -/
def emailM (prev : Option Char) (cs : List Char) : Option (List Char) :=
  if bnd prev cs.head? then
    plusGreedy emailLocalChar cs (fun r1 =>
      match r1 with
      | '@' :: r2 =>
        plusGreedy emailDomainChar r2 (fun r3 =>
          match r3 with
          | '.' :: r4 => tryDownTld r4 (countLeading emailTldChar r4)
          | _ => Option.none)
      | _ => Option.none)
  else Option.none

/-- `re.sub` scanning loop: attempt the matcher at every position from the
left; on a match emit the replacement and resume after the matched text
(whose last character becomes the new `prev` for later `\b` tests).  The
fuel argument only makes the recursion structural: every step strictly
shortens the character list, so with fuel `≥ length + 1` the fuel branch is
never taken (`pySub` below always supplies that much). -/
def subAux (m : Option Char → List Char → Option (List Char)) (repl : List Char) :
    Nat → List Char → Option Char → List Char
  | 0, cs, _ => cs
  | _ + 1, [], _ => []
  | fuel + 1, c :: rest, prev =>
    match m prev (c :: rest) with
    | some r =>
      if r.length < (c :: rest).length then
        let consumed := (c :: rest).take ((c :: rest).length - r.length)
        repl ++ subAux m repl fuel r (some (consumed.getLast?.getD c))
      else
        c :: subAux m repl fuel rest (some c)
    | Option.none => c :: subAux m repl fuel rest (some c)

/-- `re.sub(pattern, repl, s)` for one hand-compiled pattern. -/
def pySub (m : Option Char → List Char → Option (List Char)) (repl : String)
    (s : String) : String :=
  String.mk (subAux m repl.data (s.data.length + 1) s.data Option.none)

/-- `LogAttributesValidator.strip_pii` (source lines 140–158): card, then
email, then phone redaction, applied sequentially. -/
def strip_pii (text : String) : String :=
  pySub phoneM "[REDACTED_PHONE]"
    (pySub emailM "[REDACTED_EMAIL]"
      (pySub cardM "[REDACTED_CARD]" text))

/-! ### `LogAttributesEnricher` (source lines 161–230) -/

/-- The process-wide environment variables read by the enricher
(`os.getenv`); `Option.none` models an unset variable. -/
structure Config where
  otelServiceName : Option String
  environment : Option String
  serviceVersion : Option String
  hostname : Option String
deriving DecidableEq, Repr

/-- No configuration overrides set: every `os.getenv` falls back to its
built-in default. -/
def defaultConfig : Config :=
  ⟨Option.none, Option.none, Option.none, Option.none⟩

/-- The namespace derivation table of `_infer_namespace`, in dict insertion
order. -/
def namespaceMapping : List (String × String) :=
  [("auth", "identity"), ("session", "identity"), ("dictation_frontend", "frontend"),
   ("dictation_backend", "backend"), ("worklist", "frontend"), ("viewer", "frontend")]

/-- `LogAttributesEnricher._infer_namespace` (source lines 201–217).  The
source calls `service_name.lower()`, which raises `AttributeError` on any
non-string scalar — modelled by `Option.none`.  For a string, the first
table key that is a substring of the lowercased name wins; otherwise
`"unknown"`. -/
def infer_namespace : Value → Option String
  | .str s =>
    some ((namespaceMapping.find?
        (fun p => containsSub p.1.data (lowerL s.data))).map Prod.snd |>.getD "unknown")
  | _ => Option.none

/-- The category derivation table of `_infer_category`, in dict insertion
order. -/
def categoryMapping : List (String × String) :=
  [("auth", "authentication"), ("session", "backend"), ("dictation_frontend", "frontend"),
   ("dictation_backend", "backend"), ("worklist", "frontend"), ("viewer", "frontend")]

/-- `LogAttributesEnricher._infer_category` (source lines 219–230):
`mapping.get(event_domain, "frontend")` — a dict key lookup, with explicit
fallback `"frontend"`; it never raises on a scalar (scalars are hashable). -/
def infer_category (event_domain : Value) : String :=
  ((categoryMapping.find? (fun p => decide (Value.str p.1 = event_domain))).map
    Prod.snd).getD "frontend"

/-- Steps 1–4 of `enrich_from_service_context` (source lines 169–185):
backfill `service.name`, `deployment.environment`, `service.version` and
`host.name` from environment variables with their built-in defaults. -/
def enrichBase (cfg : Config) (attributes : AttrSet) : AttrSet :=
  addIfAbsent
    (addIfAbsent
      (addIfAbsent
        (addIfAbsent attributes "service.name"
          (Value.str (cfg.otelServiceName.getD "unknown-service")))
        "deployment.environment" (Value.str (cfg.environment.getD "dev")))
      "service.version" (Value.str (cfg.serviceVersion.getD "0.0.0")))
    "host.name" (Value.str (cfg.hostname.getD "unknown-host"))

/-- Step 5 of `enrich_from_service_context` (source lines 187–191): derive
`service.namespace` from `service.name` when absent; propagates the
`AttributeError` of `_infer_namespace` on a non-string name. -/
def enrichNs (l : AttrSet) : Option AttrSet :=
  if containsKey l "service.namespace" then some l
  else
    (infer_namespace (dictGetD l "service.name" (Value.str ""))).map
      (fun ns => l ++ [("service.namespace", Value.str ns)])

/-- Step 6 of `enrich_from_service_context` (source lines 193–197): derive
`event.category` from `event.domain` when `event.category` is absent and
`event.domain` is present. -/
def enrichCat (l : AttrSet) : AttrSet :=
  if !containsKey l "event.category" && containsKey l "event.domain" then
    l ++ [("event.category",
      Value.str (infer_category (dictGetD l "event.domain" (Value.str ""))))]
  else l

/-- `LogAttributesEnricher.enrich_from_service_context`
(source lines 164–199); `Option.none` models the `AttributeError` raised by
`_infer_namespace` when `service.name` holds a non-string scalar and
`service.namespace` is absent. -/
def enrich_from_service_context (cfg : Config) (attributes : AttrSet) :
    Option AttrSet :=
  (enrichNs (enrichBase cfg attributes)).map enrichCat

/-! ### `validate_and_enrich_log_record` (source lines 233–262) -/

/-- The body scan of `validate_and_enrich_log_record` step 3:
`any(keyword.lower() in log_body.lower() for keyword in FORBIDDEN_KEYWORDS)`. -/
def bodyHasForbiddenKeyword (log_body : String) : Bool :=
  FORBIDDEN_KEYWORDS.any
    (fun kw => containsSub (lowerL kw.data) (lowerL log_body.data))

/-- `validate_and_enrich_log_record` (source lines 233–262).  Alongside the
returned `(is_valid, enriched_attributes, error_message)` triple, the list
of `logger.warning` messages emitted during the call is made explicit (in
emission order); `Option.none` propagates the enricher's exception. -/
def validate_and_enrich_log_record (cfg : Config) (log_body : String)
    (attributes : AttrSet) : Option ((Bool × AttrSet × String) × List String) :=
  (enrich_from_service_context cfg attributes).map (fun enriched =>
    match validate_attributes enriched with
    | (is_valid, error_msg, cleaned) =>
      if !is_valid then
        ((false, cleaned, error_msg), ["Log validation failed: " ++ error_msg])
      else if bodyHasForbiddenKeyword log_body then
        ((true, cleaned, ""),
          ["Log body contains forbidden keywords",
           "Log body sanitized: " ++ strip_pii log_body])
      else
        ((true, cleaned, ""), []))

/-! ### Concrete attribute sets used by the theorems below -/

/-- A set missing `deployment.environment` (first absent mandatory field)
and with a falsy `log.level`. -/
def attrsMissing : AttrSet :=
  [("service.name", Value.str "x"), ("log.level", Value.str "")]

/-- The spec's end-to-end success input. -/
def attrsOk : AttrSet :=
  [("service.name", Value.str "auth-api"),
   ("deployment.environment", Value.str "prod"),
   ("log.level", Value.str "INFO"),
   ("event.domain", Value.str "auth"),
   ("event.type", Value.str "access")]

/-- `attrsOk` after enrichment with default configuration. -/
def attrsOkEnriched : AttrSet :=
  attrsOk ++
    [("service.version", Value.str "0.0.0"),
     ("host.name", Value.str "unknown-host"),
     ("service.namespace", Value.str "identity"),
     ("event.category", Value.str "authentication")]

/-- Valid mandatory fields plus an extra value whose mixed-case text hides
the keyword `secret`. -/
def attrsSecret : AttrSet :=
  attrsOk ++ [("user.note", Value.str "MySecretValue")]

/-- Valid mandatory fields with a non-string (malformed) `log.level`. -/
def attrsBadLevel : AttrSet :=
  [("service.name", Value.str "x"),
   ("deployment.environment", Value.str "prod"),
   ("log.level", Value.int 5),
   ("event.domain", Value.str "auth"),
   ("event.type", Value.str "access")]

/-- A string-valued `service.name` only. -/
def attrsName : AttrSet := [("service.name", Value.str "foo")]

/-- `attrsName` after enrichment with default configuration. -/
def attrsNameEnriched : AttrSet :=
  attrsName ++
    [("deployment.environment", Value.str "dev"),
     ("service.version", Value.str "0.0.0"),
     ("host.name", Value.str "unknown-host"),
     ("service.namespace", Value.str "unknown")]

/-- An `event.domain` outside the category table. -/
def attrsOddDomain : AttrSet := [("event.domain", Value.str "telemetry")]

/-- `attrsOddDomain` after enrichment with default configuration. -/
def attrsOddDomainEnriched : AttrSet :=
  attrsOddDomain ++
    [("service.name", Value.str "unknown-service"),
     ("deployment.environment", Value.str "dev"),
     ("service.version", Value.str "0.0.0"),
     ("host.name", Value.str "unknown-host"),
     ("service.namespace", Value.str "unknown"),
     ("event.category", Value.str "frontend")]

/-! ### Helper lemmas -/

theorem strAppend_ne_empty (s t : String) (h : s.data ≠ []) : s ++ t ≠ "" := by
  intro habs
  have h2 : s.data ++ t.data = [] := by
    have h3 := congrArg String.data habs
    rwa [String.data_append] at h3
  exact h (List.append_eq_nil.mp h2).1

theorem keyFind_append (l m : AttrSet) (k : String) :
    keyFind (l ++ m) k = (keyFind l k).or (keyFind m k) :=
  List.find?_append

theorem containsKey_append (l m : AttrSet) (k : String) :
    containsKey (l ++ m) k = (containsKey l k || containsKey m k) := by
  unfold containsKey
  rw [keyFind_append]
  cases keyFind l k <;> simp [Option.or]

theorem containsKey_single (k : String) (v : Value) (q : String) :
    containsKey [(k, v)] q = (k == q) := by
  simp only [containsKey, keyFind, List.find?_singleton]
  cases h : (k == q) <;> simp [h]

theorem getV_append_left {l : AttrSet} {k : String} (h : containsKey l k = true)
    (m : AttrSet) : getV (l ++ m) k = getV l k := by
  unfold containsKey at h
  unfold getV
  rw [keyFind_append]
  cases hf : keyFind l k with
  | none => rw [hf] at h; simp at h
  | some x => simp [Option.or]

theorem getV_append_single_self {l : AttrSet} {k : String}
    (h : containsKey l k = false) (v : Value) :
    getV (l ++ [(k, v)]) k = some v := by
  unfold containsKey at h
  unfold getV
  rw [keyFind_append]
  cases hf : keyFind l k with
  | none => simp [Option.or, keyFind, List.find?_singleton]
  | some x => rw [hf] at h; simp at h

theorem getV_append_single_ne {l : AttrSet} {k q : String} (h : (k == q) = false)
    (v : Value) : getV (l ++ [(k, v)]) q = getV l q := by
  unfold getV
  rw [keyFind_append]
  cases hf : keyFind l q with
  | none => simp [Option.or, keyFind, List.find?_singleton, h]
  | some x => simp [Option.or]

theorem addIfAbsent_of_contains {l : AttrSet} {k : String}
    (h : containsKey l k = true) (v : Value) : addIfAbsent l k v = l := by
  unfold addIfAbsent
  rw [h]
  rfl

theorem containsKey_addIfAbsent_self (l : AttrSet) (k : String) (v : Value) :
    containsKey (addIfAbsent l k v) k = true := by
  unfold addIfAbsent
  split
  · assumption
  · rw [containsKey_append, containsKey_single]
    simp

theorem containsKey_addIfAbsent_mono {l : AttrSet} {q : String}
    (h : containsKey l q = true) (k : String) (v : Value) :
    containsKey (addIfAbsent l k v) q = true := by
  unfold addIfAbsent
  split
  · exact h
  · rw [containsKey_append, h]
    simp

theorem containsKey_addIfAbsent_ne {l : AttrSet} {k q : String}
    (h : (k == q) = false) (v : Value) :
    containsKey (addIfAbsent l k v) q = containsKey l q := by
  unfold addIfAbsent
  split
  · rfl
  · rw [containsKey_append, containsKey_single, h]
    simp

theorem getV_addIfAbsent_of_contains {l : AttrSet} {q : String}
    (h : containsKey l q = true) (k : String) (v : Value) :
    getV (addIfAbsent l k v) q = getV l q := by
  unfold addIfAbsent
  split
  · rfl
  · exact getV_append_left h _

theorem getV_addIfAbsent_ne {l : AttrSet} {k q : String} (h : (k == q) = false)
    (v : Value) : getV (addIfAbsent l k v) q = getV l q := by
  unfold addIfAbsent
  split
  · rfl
  · exact getV_append_single_ne h v

theorem containsKey_eq_isSome_getV (l : AttrSet) (k : String) :
    containsKey l k = (getV l k).isSome := by
  unfold containsKey getV
  cases keyFind l k <;> simp

theorem addIfAbsent_of_not_contains {l : AttrSet} {k : String}
    (h : containsKey l k = false) (v : Value) : addIfAbsent l k v = l ++ [(k, v)] := by
  unfold addIfAbsent
  rw [h]
  simp

theorem containsKey_enrichBase_self (cfg : Config) (a : AttrSet) :
    containsKey (enrichBase cfg a) "service.name" = true ∧
    containsKey (enrichBase cfg a) "deployment.environment" = true ∧
    containsKey (enrichBase cfg a) "service.version" = true ∧
    containsKey (enrichBase cfg a) "host.name" = true := by
  unfold enrichBase
  refine ⟨?_, ?_, ?_, ?_⟩
  · exact containsKey_addIfAbsent_mono
      (containsKey_addIfAbsent_mono
        (containsKey_addIfAbsent_mono (containsKey_addIfAbsent_self _ _ _) _ _) _ _) _ _
  · exact containsKey_addIfAbsent_mono
      (containsKey_addIfAbsent_mono (containsKey_addIfAbsent_self _ _ _) _ _) _ _
  · exact containsKey_addIfAbsent_mono (containsKey_addIfAbsent_self _ _ _) _ _
  · exact containsKey_addIfAbsent_self _ _ _

theorem enrichBase_of_contains {cfg : Config} {a : AttrSet}
    (h1 : containsKey a "service.name" = true)
    (h2 : containsKey a "deployment.environment" = true)
    (h3 : containsKey a "service.version" = true)
    (h4 : containsKey a "host.name" = true) : enrichBase cfg a = a := by
  unfold enrichBase
  rw [addIfAbsent_of_contains h1, addIfAbsent_of_contains h2,
    addIfAbsent_of_contains h3, addIfAbsent_of_contains h4]

theorem containsKey_enrichBase_other (cfg : Config) (a : AttrSet) (q : String)
    (h1 : ("service.name" == q) = false)
    (h2 : ("deployment.environment" == q) = false)
    (h3 : ("service.version" == q) = false)
    (h4 : ("host.name" == q) = false) :
    containsKey (enrichBase cfg a) q = containsKey a q := by
  unfold enrichBase
  rw [containsKey_addIfAbsent_ne h4, containsKey_addIfAbsent_ne h3,
    containsKey_addIfAbsent_ne h2, containsKey_addIfAbsent_ne h1]

theorem getV_enrichBase_other (cfg : Config) (a : AttrSet) (q : String)
    (h1 : ("service.name" == q) = false)
    (h2 : ("deployment.environment" == q) = false)
    (h3 : ("service.version" == q) = false)
    (h4 : ("host.name" == q) = false) :
    getV (enrichBase cfg a) q = getV a q := by
  unfold enrichBase
  rw [getV_addIfAbsent_ne h4, getV_addIfAbsent_ne h3,
    getV_addIfAbsent_ne h2, getV_addIfAbsent_ne h1]

theorem getV_enrichBase_contains {cfg : Config} {a : AttrSet} {q : String}
    (h : containsKey a q = true) : getV (enrichBase cfg a) q = getV a q := by
  unfold enrichBase
  have c1 := containsKey_addIfAbsent_mono h "service.name"
    (Value.str (cfg.otelServiceName.getD "unknown-service"))
  have c2 := containsKey_addIfAbsent_mono c1 "deployment.environment"
    (Value.str (cfg.environment.getD "dev"))
  have c3 := containsKey_addIfAbsent_mono c2 "service.version"
    (Value.str (cfg.serviceVersion.getD "0.0.0"))
  rw [getV_addIfAbsent_of_contains c3, getV_addIfAbsent_of_contains c2,
    getV_addIfAbsent_of_contains c1, getV_addIfAbsent_of_contains h]

theorem getV_enrichBase_name (cfg : Config) (a : AttrSet) :
    getV (enrichBase cfg a) "service.name" =
      if containsKey a "service.name" = true then getV a "service.name"
      else some (Value.str (cfg.otelServiceName.getD "unknown-service")) := by
  cases h : containsKey a "service.name" with
  | true =>
    rw [if_pos rfl]
    exact getV_enrichBase_contains h
  | false =>
    rw [if_neg (by simp)]
    unfold enrichBase
    rw [getV_addIfAbsent_ne (by decide), getV_addIfAbsent_ne (by decide),
      getV_addIfAbsent_ne (by decide), addIfAbsent_of_not_contains h,
      getV_append_single_self h]

theorem enrichNs_shape {l e : AttrSet} (h : enrichNs l = some e) :
    (containsKey l "service.namespace" = true ∧ e = l) ∨
    (containsKey l "service.namespace" = false ∧
      ∃ ns, e = l ++ [("service.namespace", Value.str ns)]) := by
  unfold enrichNs at h
  cases hc : containsKey l "service.namespace" with
  | true =>
    rw [hc] at h
    simp at h
    exact Or.inl ⟨rfl, h.symm⟩
  | false =>
    rw [hc] at h
    simp only [Bool.false_eq_true, if_false] at h
    cases hn : infer_namespace (dictGetD l "service.name" (Value.str "")) with
    | none => rw [hn] at h; simp at h
    | some ns =>
      rw [hn] at h
      simp at h
      exact Or.inr ⟨rfl, ns, h.symm⟩

theorem enrichCat_shape (l : AttrSet) :
    (containsKey l "event.category" = false ∧ containsKey l "event.domain" = true ∧
      enrichCat l = l ++ [("event.category",
        Value.str (infer_category (dictGetD l "event.domain" (Value.str ""))))]) ∨
    ((containsKey l "event.category" = true ∨ containsKey l "event.domain" = false) ∧
      enrichCat l = l) := by
  unfold enrichCat
  cases hc : containsKey l "event.category" <;>
    cases hd : containsKey l "event.domain" <;> simp [hc, hd]

/-! ### Claim theorems -/

/-- C1: whenever at least one mandatory field is absent or falsy (so the
mandatory-field loop finds a first offender `f`), `validate_attributes`
returns `isValid = false`, `cleaned` equal to (a copy of) the input, and the
message `"Missing mandatory attribute: <f>"`, where `f` is the first
absent-or-falsy field in the fixed order of `MANDATORY_ATTRIBUTES`. -/
theorem validate_missing_mandatory (attrs : AttrSet) (f : String)
    (h : firstMissingMandatory attrs = some f) :
    validate_attributes attrs =
      (false, "Missing mandatory attribute: " ++ f, attrs) ∧
    missingOrFalsy attrs f = true ∧
    ∃ pre post, MANDATORY_ATTRIBUTES = pre ++ f :: post ∧
      ∀ g ∈ pre, missingOrFalsy attrs g = false := by
  have hd := List.find?_eq_some.mp h
  refine ⟨?_, by simpa using hd.1, ?_⟩
  · unfold validate_attributes
    rw [h]
  · obtain ⟨pre, post, hsplit, hpre⟩ := hd.2
    exact ⟨pre, post, hsplit, fun g hg => by simpa using hpre g hg⟩

/-- Witness for C1 at a concrete input: `deployment.environment` is the
first absent mandatory field of `attrsMissing`. -/
theorem validate_missing_mandatory_witness :
    firstMissingMandatory attrsMissing = some "deployment.environment" ∧
    validate_attributes attrsMissing =
      (false, "Missing mandatory attribute: deployment.environment",
        attrsMissing) := by
  refine ⟨by decide, ?_⟩
  exact ((validate_missing_mandatory attrsMissing "deployment.environment"
    (by decide)).1).trans (by decide)

/-- C2: end-to-end success with no configuration overrides — the result is
valid, the error is empty, no warning is emitted, and the result set is the
input plus exactly `service.version = "0.0.0"`, `host.name =
"unknown-host"`, `service.namespace = "identity"` and `event.category =
"authentication"`. -/
theorem ve_end_to_end_success :
    validate_and_enrich_log_record defaultConfig "Request ok" attrsOk =
      some ((true, attrsOkEnriched, ""), []) := by decide

/-- C9: `strip_pii` redacts the card, email and phone examples as
specified, and is by construction the sequential composition card-sub, then
email-sub, then phone-sub. -/
theorem strip_pii_examples :
    strip_pii "Card 1234-5678-9012-3456" = "Card [REDACTED_CARD]" ∧
    strip_pii "contact me@example.com now" = "contact [REDACTED_EMAIL] now" ∧
    strip_pii "call 0912345678" = "call [REDACTED_PHONE]" ∧
    ∀ t, strip_pii t =
      pySub phoneM "[REDACTED_PHONE]"
        (pySub emailM "[REDACTED_EMAIL]" (pySub cardM "[REDACTED_CARD]" t)) :=
  ⟨by decide, by decide, by decide, fun _ => rfl⟩

/-- C10: with no configuration overrides, an empty attribute set fails
validation on `log.level` (not on `service.name`), because enrichment runs
first and backfills `service.name` and `deployment.environment`. -/
theorem ve_empty_attrs_missing_log_level :
    validate_and_enrich_log_record defaultConfig "" [] =
      some ((false,
        [("service.name", Value.str "unknown-service"),
         ("deployment.environment", Value.str "dev"),
         ("service.version", Value.str "0.0.0"),
         ("host.name", Value.str "unknown-host"),
         ("service.namespace", Value.str "unknown")],
        "Missing mandatory attribute: log.level"),
        ["Log validation failed: Missing mandatory attribute: log.level"]) := by
  decide

/-- C3 counterexample: with a numeric `service.name` (a scalar) and no
`service.namespace`, `enrich_from_service_context` hits the
`service_name.lower()` call of `_infer_namespace` on an `int` and raises
`AttributeError` (modelled as `Option.none`) — so enrichment is not
error-free on all scalar-valued attribute sets. -/
theorem enrich_raises_on_int_service_name :
    enrich_from_service_context defaultConfig [("service.name", Value.int 5)] =
      Option.none := by decide

/-- C3 amended: `enrich_from_service_context` returns normally on every
attribute set in which the value of `service.name`, when present, is a
string (in particular, on every all-string attribute set). -/
theorem enrich_total_of_string_name (cfg : Config) (attrs : AttrSet)
    (h : ∀ v, getV attrs "service.name" = some v → ∃ s, v = Value.str s) :
    (enrich_from_service_context cfg attrs).isSome = true := by
  unfold enrich_from_service_context
  suffices hs : (enrichNs (enrichBase cfg attrs)).isSome = true by
    cases he : enrichNs (enrichBase cfg attrs) with
    | none => rw [he] at hs; simp at hs
    | some e => simp
  unfold enrichNs
  cases hc : containsKey (enrichBase cfg attrs) "service.namespace" with
  | true => simp
  | false =>
    simp only [Bool.false_eq_true, if_false]
    have hn := getV_enrichBase_name cfg attrs
    cases hsn : containsKey attrs "service.name" with
    | true =>
      rw [hsn, if_pos rfl] at hn
      have hvs : (getV attrs "service.name").isSome = true := by
        rw [← containsKey_eq_isSome_getV]; exact hsn
      obtain ⟨v, hv⟩ := Option.isSome_iff_exists.mp hvs
      obtain ⟨s, rfl⟩ := h v hv
      have hg : dictGetD (enrichBase cfg attrs) "service.name" (Value.str "") =
          Value.str s := by
        unfold dictGetD
        rw [hn, hv]
        rfl
      rw [hg]
      unfold infer_namespace
      simp
    | false =>
      rw [hsn, if_neg (by simp)] at hn
      have hg : dictGetD (enrichBase cfg attrs) "service.name" (Value.str "") =
          Value.str (cfg.otelServiceName.getD "unknown-service") := by
        unfold dictGetD
        rw [hn]
        rfl
      rw [hg]
      unfold infer_namespace
      simp

/-- Witness for the amended C3: enrichment succeeds on a concrete
string-named attribute set. -/
theorem enrich_total_of_string_name_witness :
    (enrich_from_service_context defaultConfig attrsName).isSome = true := by
  apply enrich_total_of_string_name
  intro v hv
  have hv2 : some (Value.str "foo") = some v := hv
  exact ⟨"foo", (Option.some.inj hv2).symm⟩
/-- C4: when the (enriched) attributes pass validation, the record is
returned as valid with the validator's cleaned set and an empty error, for
every body — a forbidden keyword in the body never flips validity; it only
adds warning diagnostics, the second of which carries the sanitized body
computed by `strip_pii`. -/
theorem ve_body_keyword_soft (cfg : Config) (log_body : String)
    (attrs enriched : AttrSet)
    (he : enrich_from_service_context cfg attrs = some enriched)
    (hv : (validate_attributes enriched).1 = true) :
    validate_and_enrich_log_record cfg log_body attrs =
      some ((true, (validate_attributes enriched).2.2, ""),
        if bodyHasForbiddenKeyword log_body = true then
          ["Log body contains forbidden keywords",
           "Log body sanitized: " ++ strip_pii log_body]
        else []) := by
  unfold validate_and_enrich_log_record
  rw [he]
  rcases hva : validate_attributes enriched with ⟨b, msg, cl⟩
  rw [hva] at hv
  simp only at hv
  subst hv
  rw [Option.map_some']
  simp only [hva]
  cases hb : bodyHasForbiddenKeyword log_body <;> simp [hb]

/-- Witness for C4: the spec's body-keyword example, on the valid input
`attrsOk` — the record stays valid and the sanitized body is logged. -/
theorem ve_body_keyword_soft_witness :
    validate_and_enrich_log_record defaultConfig "user password is hunter2"
      attrsOk =
    some ((true, attrsOkEnriched, ""),
      ["Log body contains forbidden keywords",
       "Log body sanitized: user password is hunter2"]) := by
  exact (ve_body_keyword_soft defaultConfig "user password is hunter2"
    attrsOk attrsOkEnriched (by decide) (by decide)).trans (by decide)

/-- C5: when the mandatory-field and enumeration checks pass and the
lowercased `str(dict)` serialization of the set holds some forbidden
keyword, `validate_attributes` fails with `"Forbidden keyword detected:
<k>"` where `k` is the first matching keyword in the fixed list order
(matching is case-insensitive: both sides are lowercased). -/
theorem validate_forbidden_keyword (attrs : AttrSet) (kw : String)
    (h1 : firstMissingMandatory attrs = Option.none)
    (h2 : valueIn (dictGetD attrs "log.level" Value.none) LogLevel_values = true)
    (h3 : valueIn (dictGetD attrs "deployment.environment" Value.none)
      VALID_ENVIRONMENTS = true)
    (h4 : valueIn (dictGetD attrs "event.domain" Value.none)
      EventDomain_values = true)
    (h5 : valueIn (dictGetD attrs "event.type" Value.none)
      EventType_values = true)
    (h6 : firstForbiddenKeyword attrs = some kw) :
    validate_attributes attrs =
      (false, "Forbidden keyword detected: " ++ kw, attrs) ∧
    containsSub (lowerL kw.data) (lowerL (pyStrDict attrs).data) = true ∧
    ∃ pre post, FORBIDDEN_KEYWORDS = pre ++ kw :: post ∧
      ∀ g ∈ pre,
        containsSub (lowerL g.data) (lowerL (pyStrDict attrs).data) = false := by
  have hd := List.find?_eq_some.mp h6
  refine ⟨?_, by simpa using hd.1, ?_⟩
  · simp [validate_attributes, h1, h2, h3, h4, h5, h6]
  · obtain ⟨pre, post, hsplit, hpre⟩ := hd.2
    exact ⟨pre, post, hsplit, fun g hg => by simpa using hpre g hg⟩

/-- Witness for C5: the mixed-case value `"MySecretValue"` in an otherwise
valid set trips the keyword `secret` (case-insensitively). -/
theorem validate_forbidden_keyword_witness :
    firstForbiddenKeyword attrsSecret = some "secret" ∧
    validate_attributes attrsSecret =
      (false, "Forbidden keyword detected: secret", attrsSecret) := by
  refine ⟨by decide, ?_⟩
  exact ((validate_forbidden_keyword attrsSecret "secret" (by decide) (by decide)
    (by decide) (by decide) (by decide) (by decide)).1).trans (by decide)

/-- C8: `validate_attributes` is a total function on attribute sets (the
embedding has no exception path for scalar values): it always returns a
triple whose `cleaned` component is (a copy of) the input, its error
message is empty exactly when the verdict is valid (every failure carries a
descriptive, non-empty message), and a malformed (non-enumerated, e.g.
non-string) `log.level` value produces the `"Invalid log.level: <value>"`
failure rather than a crash. -/
theorem validate_total_shape (attrs : AttrSet) :
    (validate_attributes attrs).2.2 = attrs ∧
    ((validate_attributes attrs).1 = true ↔ (validate_attributes attrs).2.1 = "") ∧
    (firstMissingMandatory attrs = Option.none →
      valueIn (dictGetD attrs "log.level" Value.none) LogLevel_values = false →
      validate_attributes attrs =
        (false, "Invalid log.level: " ++
          pyStrOfValue (dictGetD attrs "log.level" Value.none), attrs)) := by
  cases hfm : firstMissingMandatory attrs with
  | some a =>
    have hv : validate_attributes attrs =
        (false, "Missing mandatory attribute: " ++ a, attrs) := by
      unfold validate_attributes
      rw [hfm]
    rw [hv]
    have hne := strAppend_ne_empty "Missing mandatory attribute: " a (by decide)
    refine ⟨rfl, by simp [hne], fun hnone _ => absurd hnone (by simp)⟩
  | none =>
    by_cases hlv : valueIn (dictGetD attrs "log.level" Value.none) LogLevel_values = false
    · have hv : validate_attributes attrs =
          (false, "Invalid log.level: " ++
            pyStrOfValue (dictGetD attrs "log.level" Value.none), attrs) := by
        simp [validate_attributes, hfm, hlv]
      rw [hv]
      have hne := strAppend_ne_empty "Invalid log.level: "
        (pyStrOfValue (dictGetD attrs "log.level" Value.none)) (by decide)
      refine ⟨rfl, by simp [hne], fun _ _ => rfl⟩
    · rw [Bool.not_eq_false] at hlv
      by_cases henv : valueIn (dictGetD attrs "deployment.environment" Value.none)
          VALID_ENVIRONMENTS = false
      · have hv : validate_attributes attrs =
            (false, "Invalid deployment.environment: " ++
              pyStrOfValue (dictGetD attrs "deployment.environment" Value.none),
              attrs) := by
          simp [validate_attributes, hfm, hlv, henv]
        rw [hv]
        have hne := strAppend_ne_empty "Invalid deployment.environment: "
          (pyStrOfValue (dictGetD attrs "deployment.environment" Value.none))
          (by decide)
        refine ⟨rfl, by simp [hne], fun _ h2 => absurd (hlv.symm.trans h2) (by simp)⟩
      · rw [Bool.not_eq_false] at henv
        by_cases hdom : valueIn (dictGetD attrs "event.domain" Value.none)
            EventDomain_values = false
        · have hv : validate_attributes attrs =
              (false, "Invalid event.domain: " ++
                pyStrOfValue (dictGetD attrs "event.domain" Value.none), attrs) := by
            simp [validate_attributes, hfm, hlv, henv, hdom]
          rw [hv]
          have hne := strAppend_ne_empty "Invalid event.domain: "
            (pyStrOfValue (dictGetD attrs "event.domain" Value.none)) (by decide)
          refine ⟨rfl, by simp [hne], fun _ h2 => absurd (hlv.symm.trans h2) (by simp)⟩
        · rw [Bool.not_eq_false] at hdom
          by_cases hty : valueIn (dictGetD attrs "event.type" Value.none)
              EventType_values = false
          · have hv : validate_attributes attrs =
                (false, "Invalid event.type: " ++
                  pyStrOfValue (dictGetD attrs "event.type" Value.none), attrs) := by
              simp [validate_attributes, hfm, hlv, henv, hdom, hty]
            rw [hv]
            have hne := strAppend_ne_empty "Invalid event.type: "
              (pyStrOfValue (dictGetD attrs "event.type" Value.none)) (by decide)
            refine ⟨rfl, by simp [hne],
              fun _ h2 => absurd (hlv.symm.trans h2) (by simp)⟩
          · rw [Bool.not_eq_false] at hty
            cases hkw : firstForbiddenKeyword attrs with
            | some kw =>
              have hv : validate_attributes attrs =
                  (false, "Forbidden keyword detected: " ++ kw, attrs) := by
                simp [validate_attributes, hfm, hlv, henv, hdom, hty, hkw]
              rw [hv]
              have hne := strAppend_ne_empty "Forbidden keyword detected: " kw
                (by decide)
              refine ⟨rfl, by simp [hne],
                fun _ h2 => absurd (hlv.symm.trans h2) (by simp)⟩
            | none =>
              have hv : validate_attributes attrs = (true, "", attrs) := by
                simp [validate_attributes, hfm, hlv, henv, hdom, hty, hkw]
              rw [hv]
              refine ⟨rfl, by simp, fun _ h2 => absurd (hlv.symm.trans h2) (by simp)⟩

/-- Witness for C8: a non-string `log.level` value (`5`) on an otherwise
complete set yields the descriptive enumeration failure. -/
theorem validate_total_shape_witness :
    validate_attributes attrsBadLevel =
      (false, "Invalid log.level: 5", attrsBadLevel) := by
  exact ((validate_total_shape attrsBadLevel).2.2 (by decide) (by decide)).trans
    (by decide)
/-- C6: under any fixed configuration, enrichment is idempotent (running it
on its own output, along the non-raising path, changes nothing) and never
overwrites a key present in the input — the enriched set maps every such
key to the input's value, regardless of configured defaults. -/
theorem enrich_idempotent_no_overwrite (cfg : Config) (x : AttrSet) :
    (enrich_from_service_context cfg x).bind (enrich_from_service_context cfg) =
      enrich_from_service_context cfg x ∧
    ∀ k y, containsKey x k = true → enrich_from_service_context cfg x = some y →
      getV y k = getV x k := by
  constructor
  · cases hx : enrich_from_service_context cfg x with
    | none => simp
    | some y =>
      rw [Option.some_bind]
      unfold enrich_from_service_context at hx
      cases he : enrichNs (enrichBase cfg x) with
      | none => rw [he] at hx; simp at hx
      | some e =>
        rw [he, Option.map_some'] at hx
        have hx2 : enrichCat e = y := Option.some.inj hx
        have hb := containsKey_enrichBase_self cfg x
        have hcke : ∀ q, containsKey (enrichBase cfg x) q = true →
            containsKey e q = true := by
          intro q hq
          rcases enrichNs_shape he with ⟨_, rfl⟩ | ⟨_, ns, rfl⟩
          · exact hq
          · rw [containsKey_append, hq]
            simp
        have hens : containsKey e "service.namespace" = true := by
          rcases enrichNs_shape he with ⟨hns, rfl⟩ | ⟨_, ns, rfl⟩
          · exact hns
          · rw [containsKey_append, containsKey_single]
            simp
        have hcky : ∀ q, containsKey e q = true → containsKey y q = true := by
          intro q hq
          rw [← hx2]
          rcases enrichCat_shape e with ⟨_, _, heq⟩ | ⟨_, heq⟩ <;> rw [heq]
          · rw [containsKey_append, hq]
            simp
          · exact hq
        have hycat : containsKey y "event.category" = true ∨
            containsKey y "event.domain" = false := by
          rcases enrichCat_shape e with ⟨hc1, hc2, heq⟩ | ⟨hor, heq⟩
          · left
            rw [← hx2, heq, containsKey_append, containsKey_single]
            simp
          · rcases hor with hc | hd
            · exact Or.inl (hcky _ hc)
            · right
              rw [← hx2, heq]
              exact hd
        unfold enrich_from_service_context
        have hby : enrichBase cfg y = y :=
          enrichBase_of_contains (hcky _ (hcke _ hb.1)) (hcky _ (hcke _ hb.2.1))
            (hcky _ (hcke _ hb.2.2.1)) (hcky _ (hcke _ hb.2.2.2))
        rw [hby]
        have hnsy : enrichNs y = some y := by
          unfold enrichNs
          rw [hcky _ hens]
          simp
        rw [hnsy, Option.map_some']
        have hcaty : enrichCat y = y := by
          unfold enrichCat
          rcases hycat with hc | hd
          · rw [hc]
            simp
          · rw [hd]
            simp
        rw [hcaty]
  · intro k y hk hx
    unfold enrich_from_service_context at hx
    cases he : enrichNs (enrichBase cfg x) with
    | none => rw [he] at hx; simp at hx
    | some e =>
      rw [he, Option.map_some'] at hx
      have hx2 : enrichCat e = y := Option.some.inj hx
      have h1 : getV (enrichBase cfg x) k = getV x k := getV_enrichBase_contains hk
      have hcb : containsKey (enrichBase cfg x) k = true := by
        rw [containsKey_eq_isSome_getV, h1, ← containsKey_eq_isSome_getV]
        exact hk
      have h2 : getV e k = getV x k := by
        rcases enrichNs_shape he with ⟨_, rfl⟩ | ⟨_, ns, rfl⟩
        · exact h1
        · rw [getV_append_left hcb]
          exact h1
      have hce : containsKey e k = true := by
        rw [containsKey_eq_isSome_getV, h2, ← containsKey_eq_isSome_getV]
        exact hk
      rw [← hx2]
      rcases enrichCat_shape e with ⟨_, _, heq⟩ | ⟨_, heq⟩ <;> rw [heq]
      · rw [getV_append_left hce]
        exact h2
      · exact h2

/-- Witness for C6 at a concrete input: for `attrsName` (whose enrichment
is `attrsNameEnriched`), re-enriching the output is a no-op and the
explicitly provided `service.name` is preserved. -/
theorem enrich_idempotent_no_overwrite_witness :
    (enrich_from_service_context defaultConfig attrsName).bind
      (enrich_from_service_context defaultConfig) =
      enrich_from_service_context defaultConfig attrsName ∧
    getV attrsNameEnriched "service.name" = getV attrsName "service.name" :=
  ⟨(enrich_idempotent_no_overwrite defaultConfig attrsName).1,
   (enrich_idempotent_no_overwrite defaultConfig attrsName).2 "service.name"
     attrsNameEnriched (by decide) (by decide)⟩
/-- C7: along the non-raising path, the enriched set holds `event.category`
iff the input holds `event.category` or `event.domain`; when derived (input
has `event.domain` but not `event.category`) its value comes from the
category table applied to the input's `event.domain` value, whose entries
are `auth → authentication`, `session → backend`,
`dictation_frontend/worklist/viewer → frontend`,
`dictation_backend → backend`, with fallback `"frontend"` (not `"unknown"`)
on any unmatched domain; with no `event.domain` in the input,
`event.category` stays absent. -/
theorem enrich_event_category (cfg : Config) (attrs y : AttrSet)
    (h : enrich_from_service_context cfg attrs = some y) :
    containsKey y "event.category" =
      (containsKey attrs "event.category" || containsKey attrs "event.domain") ∧
    (containsKey attrs "event.category" = false →
      containsKey attrs "event.domain" = true →
      getV y "event.category" =
        some (Value.str
          (infer_category (dictGetD attrs "event.domain" (Value.str ""))))) ∧
    infer_category (Value.str "auth") = "authentication" ∧
    infer_category (Value.str "session") = "backend" ∧
    infer_category (Value.str "dictation_frontend") = "frontend" ∧
    infer_category (Value.str "dictation_backend") = "backend" ∧
    infer_category (Value.str "worklist") = "frontend" ∧
    infer_category (Value.str "viewer") = "frontend" ∧
    ∀ v : Value, (∀ p ∈ categoryMapping, Value.str p.1 ≠ v) →
      infer_category v = "frontend" := by
  unfold enrich_from_service_context at h
  cases he : enrichNs (enrichBase cfg attrs) with
  | none => rw [he] at h; simp at h
  | some e =>
    rw [he, Option.map_some'] at h
    have hx2 : enrichCat e = y := Option.some.inj h
    have hcat : containsKey e "event.category" = containsKey attrs "event.category" := by
      rcases enrichNs_shape he with ⟨_, rfl⟩ | ⟨_, ns, rfl⟩
      · exact containsKey_enrichBase_other cfg attrs _ (by decide) (by decide)
          (by decide) (by decide)
      · rw [containsKey_append, containsKey_single,
          show (("service.namespace" : String) == "event.category") = false from by decide]
        rw [Bool.or_false]
        exact containsKey_enrichBase_other cfg attrs _ (by decide) (by decide)
          (by decide) (by decide)
    have hdom : containsKey e "event.domain" = containsKey attrs "event.domain" := by
      rcases enrichNs_shape he with ⟨_, rfl⟩ | ⟨_, ns, rfl⟩
      · exact containsKey_enrichBase_other cfg attrs _ (by decide) (by decide)
          (by decide) (by decide)
      · rw [containsKey_append, containsKey_single,
          show (("service.namespace" : String) == "event.domain") = false from by decide]
        rw [Bool.or_false]
        exact containsKey_enrichBase_other cfg attrs _ (by decide) (by decide)
          (by decide) (by decide)
    have hgdom : getV e "event.domain" = getV attrs "event.domain" := by
      rcases enrichNs_shape he with ⟨_, rfl⟩ | ⟨_, ns, rfl⟩
      · exact getV_enrichBase_other cfg attrs _ (by decide) (by decide)
          (by decide) (by decide)
      · rw [getV_append_single_ne (by decide)]
        exact getV_enrichBase_other cfg attrs _ (by decide) (by decide)
          (by decide) (by decide)
    refine ⟨?_, ?_, by decide, by decide, by decide, by decide, by decide, by decide, ?_⟩
    · rcases enrichCat_shape e with ⟨hc1, hc2, heq⟩ | ⟨hor, heq⟩
      · rw [← hx2, heq, containsKey_append, containsKey_single]
        rw [hcat] at hc1
        rw [hdom] at hc2
        rw [hc1, hc2]
        simp
      · rw [← hx2, heq, hcat]
        rcases hor with hc | hd
        · rw [hcat] at hc
          rw [hc]
          simp
        · rw [hdom] at hd
          rw [hd]
          simp
    · intro hccat hcdom
      rcases enrichCat_shape e with ⟨hc1, hc2, heq⟩ | ⟨hor, heq⟩
      · rw [← hx2, heq, getV_append_single_self hc1]
        have hg : dictGetD e "event.domain" (Value.str "") =
            dictGetD attrs "event.domain" (Value.str "") := by
          unfold dictGetD
          rw [hgdom]
        rw [hg]
      · exfalso
        rcases hor with hc | hd
        · rw [hcat, hccat] at hc
          exact absurd hc (by simp)
        · rw [hdom, hcdom] at hd
          exact absurd hd (by simp)
    · intro v hv
      unfold infer_category
      rw [List.find?_eq_none.mpr ?hnone]
      · rfl
      case hnone =>
        intro p hp
        simp only [decide_eq_true_eq]
        exact hv p hp

/-- Witness for C7 at a concrete input: a domain outside the table
(`"telemetry"`) derives the explicit fallback category `"frontend"`. -/
theorem enrich_event_category_witness :
    containsKey attrsOddDomainEnriched "event.category" = true ∧
    getV attrsOddDomainEnriched "event.category" = some (Value.str "frontend") := by
  have h := enrich_event_category defaultConfig attrsOddDomain
    attrsOddDomainEnriched (by decide)
  exact ⟨(h.1).trans (by decide), (h.2.1 (by decide) (by decide)).trans (by decide)⟩
